import Mathlib

/-!
# Verification of the financial_assistant transaction subsystem

Shallow embedding of the transaction identity and categorization subsystem
of the `financial_assistant` repository (files `transaction.py`,
`category.py`, `bank_history_parser.py`, `category_lookup_table.py`,
`statement_puller.py`, `cli.py`), together with proofs about the embedded
code.

Modelling conventions:
* Python strings are Lean `String`s; `str.isalnum` / `str.isspace` are
  modelled by `Char.isAlphanum` / `Char.isWhitespace` (they agree on the
  ASCII inputs this development evaluates; Python is Unicode-aware).
* Monetary values (`float` in the source) are opaque to every property
  proved here: no claim computes with them, so they are embedded as `Int`.
* Python `dict`s are embedded as association lists with unique keys,
  insertion-ordered; `d[k] = v` overwrites in place or appends
  (`dictInsert`), matching `dict` iteration semantics.
* MD5 is not re-implemented.  `hashlib.md5` consumes a sequence of
  `update` chunks; the digest is modelled as an abstract function `md5`
  from that chunk sequence (a `List HashInput`) to the hex string, passed
  as a parameter.  Uniqueness theorems assume `md5` is injective on the
  finitely many chunk sequences actually hashed (collision-freeness of
  MD5 on the program's inputs); everything else holds for arbitrary `md5`.
* Fallible code returns `Except`/`Option`; a Python `raise` is an
  `Except.error` value carrying the in-memory state observable by the
  caller at that point.
-/

set_option synthInstance.maxSize 1024

/-- `category.py`, class `Category`: the closed enumeration as declared in
the source — `Unknown` plus sixteen spending buckets, in declaration
order.  (The source declares no other member.) -/
inductive Category where
  | Unknown
  | Automotive
  | BillsUtilities
  | Education
  | Entertainment
  | FeesAdjustments
  | Food
  | Gas
  | Gifts
  | Groceries
  | Health
  | Home
  | Miscellaneous
  | Personal
  | ProfessionalServices
  | Shopping
  | Travel
deriving DecidableEq, Repr

/-- `list(Category)` in Python: the members in declaration order. -/
def categoryMembers : List Category :=
  [.Unknown, .Automotive, .BillsUtilities, .Education, .Entertainment,
   .FeesAdjustments, .Food, .Gas, .Gifts, .Groceries, .Health, .Home,
   .Miscellaneous, .Personal, .ProfessionalServices, .Shopping, .Travel]

/-- `Category.<member>.name` in Python. -/
def categoryName : Category → String
  | .Unknown => "Unknown"
  | .Automotive => "Automotive"
  | .BillsUtilities => "BillsUtilities"
  | .Education => "Education"
  | .Entertainment => "Entertainment"
  | .FeesAdjustments => "FeesAdjustments"
  | .Food => "Food"
  | .Gas => "Gas"
  | .Gifts => "Gifts"
  | .Groceries => "Groceries"
  | .Health => "Health"
  | .Home => "Home"
  | .Miscellaneous => "Miscellaneous"
  | .Personal => "Personal"
  | .ProfessionalServices => "ProfessionalServices"
  | .Shopping => "Shopping"
  | .Travel => "Travel"

/-- Python attribute access `Category.<s>` resolved against the declared
members: `some` member whose name is `s`, else `none` (an `AttributeError`
in Python). -/
def categoryAttr (s : String) : Option Category :=
  categoryMembers.find? (fun c => categoryName c == s)

/-- Auxiliary splitter: `splitCharsAux p acc cs` accumulates the current
token (reversed) in `acc` and cuts at every character satisfying `p`;
the cut characters are dropped and empty pieces are kept, matching
Python's `str.split(sep)` for a one-character separator. -/
def splitCharsAux (p : Char → Bool) : List Char → List Char → List String
  | acc, [] => [String.mk acc.reverse]
  | acc, c :: rest =>
    if p c then String.mk acc.reverse :: splitCharsAux p [] rest
    else splitCharsAux p (c :: acc) rest

/-- Split a character list at every character satisfying `p`, keeping
empty pieces (Python `str.split(sep)` semantics). -/
def splitChars (p : Char → Bool) (cs : List Char) : List String :=
  splitCharsAux p [] cs

/-- `transaction.py`, `@dataclasses.dataclass class Transaction`.  The
`id` field is declared with `repr=False`, so `str(transaction)` does not
contain it. -/
structure Transaction where
  date : String
  description : String
  category : Category
  amount : Int
  id : String
  tags : List String
  balance : Int
deriving DecidableEq, Repr

/-- The fields of a `Transaction` that appear in `str(transaction)`
(the dataclass repr): every field except `id` (`repr=False`).  Python's
dataclass repr is injective in these field values, so the repr string is
embedded by this record. -/
structure TransactionContent where
  date : String
  description : String
  category : Category
  amount : Int
  tags : List String
  balance : Int
deriving DecidableEq, Repr

/-- `str(transaction)` for hashing purposes: the visible field set. -/
def transactionContent (t : Transaction) : TransactionContent :=
  ⟨t.date, t.description, t.category, t.amount, t.tags, t.balance⟩

/-- One `hasher.update(...)` chunk inside `hash_transactions`: either the
repr of a transaction or the `str()` of an extra input. -/
inductive HashInput where
  | txn (c : TransactionContent)
  | extra (s : String)
deriving DecidableEq, Repr

/-- `transaction.py`, `hash_transactions`: the sequence of chunks fed to
the MD5 hasher — `str(t)` for each transaction in order, then `str(e)`
for each extra input.  (`if extra_inputs:` skips a `None`/empty sequence,
which feeds the same chunks as appending nothing.)  The digest itself is
`md5` applied to this sequence. -/
def hash_transactions (md5 : List HashInput → String)
    (transactions : List Transaction) (extraInputs : List String := []) : String :=
  md5 (transactions.map (fun t => HashInput.txn (transactionContent t))
        ++ extraInputs.map HashInput.extra)

/-- The inner loop of `_generate_transaction_ids` at position `i`:
`transactions_to_hash` starts as `[transactions[i]]` and extends through
`transactions[i+1:]`, stopping (`break`) at the first transaction whose
`date` differs from `transactions[i].date`. -/
def runFrom (transactions : List Transaction) (i : Nat) : List Transaction :=
  match transactions.drop i with
  | [] => []
  | t :: rest => t :: rest.takeWhile (fun u => u.date == t.date)

/-- `bank_history_parser.py`, `_generate_transaction_ids`.  Each
transaction's `id` is set to the hash of its same-day forward run; ids are
collected in the set `hashes`; the trailing `assert len(hashes) ==
len(transactions)` is the integrity check, embedded as the `Except.error`
branch.  (The source mutates each `transaction.id` in place while
iterating, but `str(transaction)` omits `id` and no other field is
written, so hashing against the original list is observationally the
same.) -/
def generate_transaction_ids (md5 : List HashInput → String)
    (transactions : List Transaction) : Except String (List Transaction) :=
  let withIds := transactions.mapIdx
    (fun i t => { t with id := hash_transactions md5 (runFrom transactions i) })
  let hashes := (withIds.map (fun t => t.id)).dedup
  if hashes.length = transactions.length then .ok withIds
  else .error "Sanity check no collisions"

/-- `date.split("-")[0]` — the year component used by the single-year
check in `_parse_csv`. -/
def yearOf (date : String) : String :=
  (splitChars (fun c => c == '-') date.data).headD ""

deriving instance DecidableEq for Except

instance : Inhabited Transaction :=
  ⟨⟨"", "", .Unknown, 0, "", [], 0⟩⟩

/-- Lexicographic comparison of character lists by code point — Python's
string `<=`/`>` used on ISO dates by `_parse_csv` and assumed by the
date-ascending precondition. -/
def charListLe : List Char → List Char → Bool
  | [], _ => true
  | _ :: _, [] => false
  | a :: as, b :: bs => if a < b then true else if b < a then false else charListLe as bs

/-- Python `a <= b` on strings (by code points). -/
def strLe (a b : String) : Bool := charListLe a.data b.data

/-- The single-year precondition established by `_parse_csv` before it
calls `_generate_transaction_ids`. -/
def SingleYear (transactions : List Transaction) : Prop :=
  ∀ t ∈ transactions, yearOf t.date = yearOf ((transactions.headD default).date)

/-- Date-ascending batches: the order `_parse_csv` guarantees (it reverses
a descending file). -/
def DateSorted (transactions : List Transaction) : Prop :=
  transactions.Pairwise (fun a b => strLe a.date b.date = true)

/-- The chunk sequences actually hashed by `_generate_transaction_ids` on
a given batch: one per position. -/
def runInputs (transactions : List Transaction) : List (List HashInput) :=
  (List.range transactions.length).map
    (fun i => (runFrom transactions i).map (fun t => HashInput.txn (transactionContent t)))

/-- Collision-freeness of `md5` on the chunk sequences of this batch. -/
def InjOnRuns (md5 : List HashInput → String) (transactions : List Transaction) : Prop :=
  ∀ l₁ ∈ runInputs transactions, ∀ l₂ ∈ runInputs transactions,
    md5 l₁ = md5 l₂ → l₁ = l₂

instance (md5 : List HashInput → String) (ts : List Transaction) :
    Decidable (InjOnRuns md5 ts) := by
  unfold InjOnRuns; infer_instance

instance (ts : List Transaction) : Decidable (SingleYear ts) := by
  unfold SingleYear; infer_instance

instance (ts : List Transaction) : Decidable (DateSorted ts) := by
  unfold DateSorted; infer_instance

/-! ## `category_lookup_table.py`: tokenization and the two stores -/

/-- `CategoryHinter._split_description`, inner `is_valid_word`. -/
def is_valid_word (s : String) : Bool :=
  s.length > 0 && s.data.all (fun c => c.isAlphanum || c == '&') && s != "&"

/-- `CategoryHinter._split_description`: replace every character that is
not alphanumeric, whitespace or `&` by a space, `split(" ")` on the space
character, keep the words passing `is_valid_word`. -/
def split_description (description : String) : List String :=
  let cleaned := description.data.map
    (fun c => if c.isAlphanum || c.isWhitespace || c == '&' then c else ' ')
  (splitChars (fun c => c == ' ') cleaned).filter is_valid_word

/-- A Python `dict` keyed by strings with `Category` values, as an
insertion-ordered association list with unique keys. -/
abbrev CategoryMap := List (String × Category)

/-- `d.get(k)` / `k in d`-style lookup. -/
def dictLookup : CategoryMap → String → Option Category
  | [], _ => none
  | p :: rest, k => if p.1 == k then some p.2 else dictLookup rest k

/-- `d[k] = v`: overwrite in place if the key exists, else append. -/
def dictInsert : CategoryMap → String → Category → CategoryMap
  | [], k, v => [(k, v)]
  | p :: rest, k, v => if p.1 == k then (k, v) :: rest else p :: dictInsert rest k v

/-- `d1 |= d2`: insert every entry of `d2` into `d1`, in order. -/
def dictMerge (d1 d2 : CategoryMap) : CategoryMap :=
  d2.foldl (fun acc p => dictInsert acc p.1 p.2) d1

/-- `CategoryHinter.store`: raises `RuntimeError` when the key contains
the space character (`" " in key`), else inserts/overwrites. -/
def hinterStore (config : CategoryMap) (key : String) (category : Category) :
    Except String CategoryMap :=
  if key.data.contains ' ' then
    .error "can not contain whitespaces, it must be 1 word"
  else .ok (dictInsert config key category)

/-- `CategoryLookupTable.store`: raises `RuntimeError` on the `Unknown`
category, else inserts/overwrites. -/
def tableStore (table : CategoryMap) (key : String) (category : Category) :
    Except String CategoryMap :=
  if category = Category.Unknown then
    .error "Trying to store with an unknown category"
  else .ok (dictInsert table key category)

/-- `CategoryHinter.hint`: the keyword-to-category pairs found in the
description, one per distinct keyword in first-occurrence order (the
source accumulates them in a `dict`). -/
def hinterHint (config : CategoryMap) (description : String) : CategoryMap :=
  (split_description description).eraseDups.filterMap
    (fun w => (dictLookup config w).map (fun c => (w, c)))

/-- Result of `CategoryHinter.build_hints`: the in-memory config after the
call, the file contents after the call, and the two reported counts
(`n new hints discovered`, `total hints`). -/
structure BuildHintsResult where
  config : CategoryMap
  file : CategoryMap
  nNew : Nat
  total : Nat
deriving DecidableEq, Repr

/-- `CategoryHinter.build_hints`.  The part-of-speech tagger
(`PerceptronTagger`, an external NLTK model) is abstracted by the
parameter `isNoun`; the source's `criteria` additionally requires a word
length above one.  The hints dict collects `{word: category}` over all
descriptions; `n` counts hint words absent from the config; the config is
merged (`self._config |= hints`) unconditionally; the file is written only
when `do_flush` is true. -/
def build_hints (isNoun : String → Bool) (config file : CategoryMap)
    (descriptionCategoryMap : CategoryMap) (do_flush : Bool) : BuildHintsResult :=
  let criteria := fun (word : String) => word.length > 1 && isNoun word
  let hints := descriptionCategoryMap.foldl
    (fun acc p => ((split_description p.1).filter criteria).foldl
      (fun acc2 w => dictInsert acc2 w p.2) acc) []
  let n := (hints.filter (fun p => dictLookup config p.1 = none)).length
  let merged := dictMerge config hints
  if do_flush then ⟨merged, merged, n, merged.length⟩
  else ⟨merged, file, n, merged.length⟩

/-! ## `statement_puller.py`: the interactive Resolution Engine -/

/-- One event on the interactive input stream: a line typed at `input()`,
or a `KeyboardInterrupt` raised while waiting. -/
inductive PromptIn where
  | input (s : String)
  | interrupt
deriving DecidableEq, Repr

/-- The exceptions the prompt loop can propagate.  `blocked` is a
modelling artifact marking an exhausted input script (the real process
would wait forever at `input()`). -/
inductive Exc where
  | keyboardInterrupt
  | runtimeError (msg : String)
  | indexError
  | blocked
deriving DecidableEq, Repr

/-- `int(s)` for plain decimal numerals with an optional leading minus
sign (the only shapes this development evaluates); anything else is a
`ValueError` (`none`). -/
def pyInt (s : String) : Option Int :=
  let digitsVal := fun (ds : List Char) =>
    (ds.foldl (fun n c => n * 10 + (c.toNat - 48)) 0 : Nat)
  match s.data with
  | [] => none
  | '-' :: ds =>
    if ds ≠ [] ∧ ds.all Char.isDigit then some (-(digitsVal ds : Int)) else none
  | ds => if ds ≠ [] ∧ ds.all Char.isDigit then some (digitsVal ds : Int) else none

/-- Python list indexing `l[i]` with negative-index wraparound; out of
range is an `IndexError` (`none`). -/
def pyListGet (l : List (Category × String)) (i : Int) : Option (Category × String) :=
  if 0 ≤ i then l.get? i.toNat
  else if (-i).toNat ≤ l.length then l.get? (l.length - (-i).toNat)
  else none

/-- The `options` list built by `_prompt_user_for_category`: the skip
entry, then the hint entries, then a bare entry for every member of
`Category` in declaration order. -/
def mkOptions (hinter : CategoryMap) (description : String) :
    List (Category × String) :=
  (Category.Unknown, "SKIP") :: (hinterHint hinter description).map (fun p => (p.2, p.1))
    ++ categoryMembers.map (fun c => (c, ""))

/-- Outcome of one iteration of the `while True` prompt body. -/
inductive StepResult where
  | ret (c : Category) (hinter table : CategoryMap)
  | reprompt
  | raised (e : Exc) (hinter table : CategoryMap)
deriving DecidableEq, Repr

/-- One iteration of the prompt loop body on the input line `inp`:
`int()` failure is a `ValueError` caught by the `except (ValueError,
KeyError)` clause (re-prompt); an out-of-range index is an uncaught
`IndexError`; the skip entry returns `Unknown` storing nothing; a hint
entry stores the keyword with `hinter.store`; every non-skip selection
then stores the whole description with `table.store`; a `RuntimeError`
from either store is not caught and propagates. -/
def promptStep (hinter table : CategoryMap) (description : String)
    (options : List (Category × String)) (inp : String) : StepResult :=
  match pyInt inp with
  | none => .reprompt
  | some i =>
    match pyListGet options i with
    | none => .raised .indexError hinter table
    | some (category, word) =>
      if word == "SKIP" then .ret category hinter table
      else
        match (if word != "" then hinterStore hinter word category else .ok hinter) with
        | .error msg => .raised (.runtimeError msg) hinter table
        | .ok hinter2 =>
          match tableStore table description category with
          | .error msg => .raised (.runtimeError msg) hinter2 table
          | .ok table2 => .ret category hinter2 table2

/-- The `while True` loop of `_prompt_user_for_category`, driven by the
input script.  Returns the outcome together with the unconsumed remainder
of the script. -/
def promptLoop (hinter table : CategoryMap) (description : String)
    (options : List (Category × String)) :
    List PromptIn → (Except (Exc × CategoryMap × CategoryMap)
      (Category × CategoryMap × CategoryMap)) × List PromptIn
  | [] => (.error (.blocked, hinter, table), [])
  | .interrupt :: rest => (.error (.keyboardInterrupt, hinter, table), rest)
  | .input s :: rest =>
    match promptStep hinter table description options s with
    | .ret c h t => (.ok (c, h, t), rest)
    | .raised e h t => (.error (e, h, t), rest)
    | .reprompt => promptLoop hinter table description options rest

/-- Observable outcome of `determine_transaction_categories`: the batch
list object (mutated in place, hence observable by the caller even when an
exception propagates), the two table states, the unconsumed script, the
positions that reached the interactive prompt, and the propagated
exception if any. -/
structure DTCOut where
  txns : List Transaction
  table : CategoryMap
  hinter : CategoryMap
  script : List PromptIn
  prompted : List Nat
  exc : Option Exc
deriving DecidableEq, Repr

/-- The `for i, transaction in enumerate(transactions)` loop of
`determine_transaction_categories`.  A successful lookup assigns the
stored category and moves on (the walrus condition is `load(...) is not
None`: every `Category` member is truthy); otherwise, when `do_prompt` is
set, the prompt runs; an exception from the prompt leaves the remaining
transactions untouched. -/
def dtcGo (do_prompt : Bool) : List Transaction → Nat → CategoryMap → CategoryMap →
    List PromptIn → DTCOut
  | [], _, table, hinter, script => ⟨[], table, hinter, script, [], none⟩
  | t :: rest, idx, table, hinter, script =>
    match dictLookup table t.description with
    | some c =>
      let r := dtcGo do_prompt rest (idx + 1) table hinter script
      ⟨{ t with category := c } :: r.txns, r.table, r.hinter, r.script, r.prompted, r.exc⟩
    | none =>
      if do_prompt then
        match promptLoop hinter table t.description (mkOptions hinter t.description) script with
        | (.ok (c, hinter2, table2), rest2) =>
          let r := dtcGo do_prompt rest (idx + 1) table2 hinter2 rest2
          ⟨{ t with category := c } :: r.txns, r.table, r.hinter, r.script,
            idx :: r.prompted, r.exc⟩
        | (.error (e, hinter2, table2), rest2) =>
          ⟨t :: rest, table2, hinter2, rest2, [idx], some e⟩
      else
        let r := dtcGo do_prompt rest (idx + 1) table hinter script
        ⟨t :: r.txns, r.table, r.hinter, r.script, r.prompted, r.exc⟩

/-- `determine_transaction_categories(transactions, do_prompt)`.  The two
tables are loaded from their files on entry (`with ... as table, ... as
hinter`); both context managers flush unconditionally on exit, normal or
exceptional, so the file contents after the call are the final in-memory
states. -/
def determine_transaction_categories (tableFile hinterFile : CategoryMap)
    (transactions : List Transaction) (do_prompt : Bool)
    (script : List PromptIn) : DTCOut :=
  dtcGo do_prompt transactions 0 tableFile hinterFile script

/-! ## Python call binding (for the `cli.py` call sites) -/

/-- A Python function signature: parameter names in order, and how many
trailing parameters carry defaults. -/
structure PySignature where
  params : List String
  defaults : Nat
deriving DecidableEq, Repr

/-- Whether a call with `npos` positional arguments and the keyword
arguments `kws` binds against `sig` (no `*args`/`**kwargs`): positional
count within arity, keywords name real parameters not already bound
positionally, no duplicates, and every non-default parameter bound. -/
def bindCall (sig : PySignature) (npos : Nat) (kws : List String) : Bool :=
  let bound := sig.params.take npos ++ kws
  decide (npos ≤ sig.params.length)
    && kws.all (fun k => sig.params.contains k)
    && (sig.params.take npos).all (fun p => !kws.contains p)
    && decide kws.Nodup
    && (sig.params.take (sig.params.length - sig.defaults)).all
        (fun p => bound.contains p)

/-- `statement_puller.determine_transaction_categories`'s signature:
`(transactions, do_prompt)`, no defaults. -/
def dtcSignature : PySignature := ⟨["transactions", "do_prompt"], 0⟩

/-- The call in `cli.CLI.do_update_categories`:
`determine_transaction_categories(table, hinter, unknown_transactions,
do_prompt=...)` — three positional arguments and the keyword
`do_prompt`. -/
def doUpdateCategoriesCall : Nat × List String := (3, ["do_prompt"])

/-- The id list computed inside `_generate_transaction_ids` before the
integrity assertion (the loop has set every `transaction.id`). -/
def idsComputed (md5 : List HashInput → String) (ts : List Transaction) : List String :=
  (ts.mapIdx (fun i t => { t with id := hash_transactions md5 (runFrom ts i) })).map
    (fun t => t.id)

/-- The table component of a prompt outcome (the state the enclosing
context manager will flush). -/
def resTable :
    Except (Exc × CategoryMap × CategoryMap) (Category × CategoryMap × CategoryMap) →
    CategoryMap
  | .ok (_, _, t) => t
  | .error (_, _, t) => t

/-! ## Specification-side definitions (stated from the spec's words, to be
compared with the embedded code) -/

/-- From the spec: the contiguous run of transactions starting at `i` and
extending forward only while the date equals the date at `i`, stopping at
the first date change (or the end of the batch). -/
def IsRunFrom (ts : List Transaction) (i : Nat) (run : List Transaction) : Prop :=
  ∃ k, 1 ≤ k ∧ run = (ts.drop i).take k
    ∧ (∀ t ∈ run, t.date = (ts.getD i default).date)
    ∧ (i + k = ts.length
        ∨ (i + k < ts.length ∧ (ts.getD (i + k) default).date ≠ (ts.getD i default).date))

/-- From the claim's words: replace every character that is not
alphanumeric, whitespace, or `&` with a space; split on **whitespace**;
discard empty tokens, tokens containing a character other than
alphanumeric/`&`, and the bare token `&`. -/
def specTokenize (description : String) : List String :=
  let cleaned := description.data.map
    (fun c => if c.isAlphanum || c.isWhitespace || c == '&' then c else ' ')
  (splitChars Char.isWhitespace cleaned).filter
    (fun s => s != "" && s.data.all (fun c => c.isAlphanum || c == '&') && s != "&")

/-- The amended tokenization: as `specTokenize` but splitting on the space
character only, so a token containing another whitespace character
survives the split and is then discarded by the validity filter. -/
def specTokenizeSpace (description : String) : List String :=
  let cleaned := description.data.map
    (fun c => if c.isAlphanum || c.isWhitespace || c == '&' then c else ' ')
  (splitChars (fun c => c == ' ') cleaned).filter
    (fun s => s != "" && s.data.all (fun c => c.isAlphanum || c == '&') && s != "&")

/-! ## Concrete witness inputs -/

/-- A concrete collision-free stand-in digest for the witnesses: the hash
of a chunk sequence is a string of `a`s of the sequence's length (the
witnesses' run inputs all have distinct lengths). -/
def md5len : List HashInput → String := fun l => String.mk (List.replicate l.length 'a')

/-- Row 1 of the `_generate_transaction_ids` docstring example. -/
def tEx1 : Transaction := ⟨"3000-01-01", "DESCRIPTION", .Unknown, 1, "", [], 1⟩

/-- Row 2 of the docstring example (balance dips by the same amount). -/
def tEx2 : Transaction := ⟨"3000-01-01", "DESCRIPTION", .Unknown, -1, "", [], 0⟩

/-- Row 3 of the docstring example — identical to row 1 in every visible
field. -/
def tEx3 : Transaction := ⟨"3000-01-01", "DESCRIPTION", .Unknown, 1, "", [], 1⟩

/-- An uncategorized transaction with the given description. -/
def dEx (n : String) : Transaction := ⟨"2024-01-01", n, .Unknown, 0, "", [], 0⟩

/-! ## Supporting lemmas -/

theorem takeWhile_eq_take_length {α : Type} (p : α → Bool) :
    ∀ l : List α, l.takeWhile p = l.take (l.takeWhile p).length := by
  intro l
  induction l with
  | nil => rfl
  | cons a as ih =>
    by_cases h : p a
    · rw [List.takeWhile_cons_of_pos h, List.length_cons, List.take_succ_cons, ← ih]
    · rw [List.takeWhile_cons_of_neg h]
      rfl

theorem takeWhile_length_le {α : Type} (p : α → Bool) :
    ∀ l : List α, (l.takeWhile p).length ≤ l.length := by
  intro l
  induction l with
  | nil => simp
  | cons a as ih =>
    by_cases h : p a
    · rw [List.takeWhile_cons_of_pos h]
      simpa using ih
    · rw [List.takeWhile_cons_of_neg h]
      simp

theorem getD_after_takeWhile {α : Type} (p : α → Bool) (d : α) :
    ∀ l : List α, (h : (l.takeWhile p).length < l.length) →
      p (l.getD (l.takeWhile p).length d) = false := by
  intro l
  induction l with
  | nil => intro h; simp at h
  | cons a as ih =>
    intro h
    by_cases hp : p a
    · rw [List.takeWhile_cons_of_pos hp] at h ⊢
      simpa using ih (by simpa using h)
    · rw [List.takeWhile_cons_of_neg hp]
      simpa using hp

theorem charListLe_antisymm :
    ∀ as bs : List Char, charListLe as bs = true → charListLe bs as = true → as = bs := by
  intro as
  induction as with
  | nil =>
    intro bs _ h2
    cases bs with
    | nil => rfl
    | cons b bs => simp [charListLe] at h2
  | cons a as ih =>
    intro bs h1 h2
    cases bs with
    | nil => simp [charListLe] at h1
    | cons b bs =>
      rcases lt_trichotomy a b with hab | hab | hab
      · rw [charListLe, if_neg (lt_asymm hab), if_pos hab] at h2
        exact absurd h2 (by simp)
      · subst hab
        rw [charListLe, if_neg (lt_irrefl a), if_neg (lt_irrefl a)] at h1 h2
        rw [ih bs h1 h2]
      · rw [charListLe, if_neg (lt_asymm hab), if_pos hab] at h1
        exact absurd h1 (by simp)

theorem strLe_antisymm {a b : String} (h1 : strLe a b = true) (h2 : strLe b a = true) :
    a = b :=
  String.ext_iff.mpr (charListLe_antisymm a.data b.data h1 h2)

theorem hash_transactions_eq (md5 : List HashInput → String) (run : List Transaction) :
    hash_transactions md5 run =
      md5 (run.map (fun t => HashInput.txn (transactionContent t))) := by
  simp [hash_transactions]

theorem runFrom_eq {ts : List Transaction} {i : Nat} (h : i < ts.length) :
    runFrom ts i =
      ts[i] :: (ts.drop (i + 1)).takeWhile (fun u => u.date == ts[i].date) := by
  rw [runFrom, List.drop_eq_getElem_cons h]

theorem runFrom_step {ts : List Transaction} {i : Nat} (h1 : i + 1 < ts.length)
    (heq : ts[i + 1].date = ts[i].date) :
    runFrom ts i = ts[i] :: runFrom ts (i + 1) := by
  have h0 : i < ts.length := Nat.lt_of_succ_lt h1
  rw [runFrom_eq h0, runFrom_eq h1, List.drop_eq_getElem_cons h1,
    List.takeWhile_cons_of_pos (by simpa using heq)]
  have hpred : (fun u : Transaction => u.date == ts[i].date)
      = (fun u : Transaction => u.date == ts[i + 1].date) := by
    funext u
    rw [heq]
  rw [hpred]

theorem dateSorted_le {ts : List Transaction} (hs : DateSorted ts) {i j : Nat}
    (hi : i < ts.length) (hj : j < ts.length) (hij : i < j) :
    strLe ts[i].date ts[j].date = true :=
  (List.pairwise_iff_getElem.mp hs) i j hi hj hij

theorem dateSorted_between {ts : List Transaction} (hs : DateSorted ts) {i j : Nat}
    (hj : j < ts.length) (hij : i < j) (hdate : ts[j].date = ts[i].date) :
    ∀ k, i ≤ k → k ≤ j → (hk : k < ts.length) → ts[k].date = ts[i].date := by
  intro k hik hkj hk
  have hi : i < ts.length := lt_of_le_of_lt (Nat.le_of_lt hij) hj
  rcases eq_or_lt_of_le hik with h1 | h1
  · subst h1
    rfl
  rcases eq_or_lt_of_le hkj with h2 | h2
  · subst h2
    exact hdate
  have hle1 : strLe ts[i].date ts[k].date = true := dateSorted_le hs hi hk h1
  have hle2 : strLe ts[k].date ts[j].date = true := dateSorted_le hs hk hj h2
  rw [hdate] at hle2
  exact (strLe_antisymm hle2 hle1)

theorem runFrom_length_of_eq {ts : List Transaction} (hs : DateSorted ts) :
    ∀ (n i j : Nat), j - i = n → (hij : i < j) → (hj : j < ts.length) →
      ts[j].date = ts[i].date →
      (runFrom ts i).length = (j - i) + (runFrom ts j).length := by
  intro n
  induction n with
  | zero => intro i j hn hij _ _; omega
  | succ n ih =>
    intro i j hn hij hj hdate
    have hi1 : i + 1 < ts.length := by omega
    have hstep : ts[i + 1].date = ts[i].date :=
      dateSorted_between hs hj hij hdate (i + 1) (by omega) (by omega) hi1
    rw [runFrom_step hi1 hstep, List.length_cons]
    rcases eq_or_lt_of_le (show i + 1 ≤ j from hij) with hcase | hcase
    · subst hcase
      omega
    · have hrec := ih (i + 1) j (by omega) hcase hj (by rw [hdate, hstep])
      rw [hrec]
      omega

theorem runInput_ne_of_lt {ts : List Transaction} (hs : DateSorted ts) {i j : Nat}
    (hij : i < j) (hj : j < ts.length) :
    (runFrom ts i).map (fun t => HashInput.txn (transactionContent t)) ≠
      (runFrom ts j).map (fun t => HashInput.txn (transactionContent t)) := by
  have hi : i < ts.length := lt_trans hij hj
  by_cases hdate : ts[j].date = ts[i].date
  · intro hEq
    have hlen := congrArg List.length hEq
    rw [List.length_map, List.length_map,
      runFrom_length_of_eq hs (j - i) i j rfl hij hj hdate] at hlen
    omega
  · intro hEq
    rw [runFrom_eq hi, runFrom_eq hj, List.map_cons, List.map_cons] at hEq
    have hhead := List.head_eq_of_cons_eq hEq
    have : transactionContent ts[i] = transactionContent ts[j] := by
      injection hhead
    have : ts[i].date = ts[j].date := congrArg TransactionContent.date this
    exact hdate this.symm

theorem idsComputed_eq (md5 : List HashInput → String) (ts : List Transaction) :
    idsComputed md5 ts =
      (List.range ts.length).map (fun i => hash_transactions md5 (runFrom ts i)) := by
  apply List.ext_getElem
  · simp [idsComputed]
  · intro n h1 h2
    simp only [idsComputed, List.getElem_map, List.getElem_mapIdx, List.getElem_range]

theorem idsComputed_nodup {md5 : List HashInput → String} {ts : List Transaction}
    (hs : DateSorted ts) (hinj : InjOnRuns md5 ts) : (idsComputed md5 ts).Nodup := by
  rw [idsComputed_eq]
  apply List.Nodup.map_on _ (List.nodup_range _)
  intro x hx y hy hxy
  rw [List.mem_range] at hx hy
  by_contra hne
  have hmemx : (runFrom ts x).map (fun t => HashInput.txn (transactionContent t))
      ∈ runInputs ts := by
    rw [runInputs]
    exact List.mem_map_of_mem _ (List.mem_range.mpr hx)
  have hmemy : (runFrom ts y).map (fun t => HashInput.txn (transactionContent t))
      ∈ runInputs ts := by
    rw [runInputs]
    exact List.mem_map_of_mem _ (List.mem_range.mpr hy)
  rw [hash_transactions_eq, hash_transactions_eq] at hxy
  have hruns := hinj _ hmemx _ hmemy hxy
  rcases Nat.lt_or_ge x y with hlt | hge
  · exact runInput_ne_of_lt hs hlt hy hruns
  · exact runInput_ne_of_lt hs (lt_of_le_of_ne hge (Ne.symm hne)) hx hruns.symm

theorem idsComputed_length (md5 : List HashInput → String) (ts : List Transaction) :
    (idsComputed md5 ts).length = ts.length := by
  simp [idsComputed]

theorem nodup_iff_dedup_length {l : List String} :
    l.Nodup ↔ l.dedup.length = l.length := by
  constructor
  · intro h
    rw [List.dedup_eq_self.mpr h]
  · intro h
    have := (List.dedup_sublist l).eq_of_length h
    rw [← this]
    exact List.nodup_dedup l

theorem generate_transaction_ids_eq (md5 : List HashInput → String) (ts : List Transaction) :
    generate_transaction_ids md5 ts =
      if (idsComputed md5 ts).dedup.length = ts.length
      then .ok (ts.mapIdx fun i t => { t with id := hash_transactions md5 (runFrom ts i) })
      else .error "Sanity check no collisions" := rfl

/-- **C1**: on every non-empty, date-ascending, single-year batch, the
Identity Engine succeeds (given a collision-free hash on the batch's
runs), producing pairwise-distinct ids whose deduplicated count equals the
batch size; and, for any hash and any batch, a collision in the generated
ids is surfaced exactly as the fatal integrity-check failure (the
assertion error), never a silent skip or deduplication. -/
theorem c1_id_generation_no_collisions :
    (∀ (md5 : List HashInput → String) (ts : List Transaction),
        ts ≠ [] → DateSorted ts → SingleYear ts → InjOnRuns md5 ts →
        ∃ ts2, generate_transaction_ids md5 ts = .ok ts2 ∧
          ts2.length = ts.length ∧
          (ts2.map (fun t => t.id)).Nodup ∧
          (ts2.map (fun t => t.id)).dedup.length = ts.length) ∧
    (∀ (md5 : List HashInput → String) (ts : List Transaction),
        generate_transaction_ids md5 ts = .error "Sanity check no collisions" ↔
          ¬ (idsComputed md5 ts).Nodup) := by
  constructor
  · intro md5 ts _hne hs _hsy hinj
    have hnodup := idsComputed_nodup hs hinj
    have hlen := idsComputed_length md5 ts
    have hcond : (idsComputed md5 ts).dedup.length = ts.length := by
      rw [← hlen]
      exact nodup_iff_dedup_length.mp hnodup
    refine ⟨ts.mapIdx fun i t => { t with id := hash_transactions md5 (runFrom ts i) },
      ?_, ?_, ?_, ?_⟩
    · rw [generate_transaction_ids_eq, if_pos hcond]
    · exact List.length_mapIdx
    · exact hnodup
    · exact hcond
  · intro md5 ts
    have hlen := idsComputed_length md5 ts
    rw [generate_transaction_ids_eq]
    by_cases hcond : (idsComputed md5 ts).dedup.length = ts.length
    · rw [if_pos hcond]
      refine iff_of_false (by simp) ?_
      exact not_not_intro (nodup_iff_dedup_length.mpr (hcond.trans hlen.symm))
    · rw [if_neg hcond]
      refine iff_of_true rfl ?_
      intro h
      exact hcond ((nodup_iff_dedup_length.mp h).trans hlen)

/-- Witness for C1: the docstring's duplicate-row batch (three same-day
transactions, the first and third identical in every visible field). -/
theorem c1_witness :
    ∃ ts2, generate_transaction_ids md5len [tEx1, tEx2, tEx3] = .ok ts2 ∧
      ts2.length = [tEx1, tEx2, tEx3].length ∧
      (ts2.map (fun t => t.id)).Nodup ∧
      (ts2.map (fun t => t.id)).dedup.length = [tEx1, tEx2, tEx3].length :=
  c1_id_generation_no_collisions.1 md5len [tEx1, tEx2, tEx3]
    (by decide) (by decide) (by decide) (by decide)

theorem runFrom_isRunFrom {ts : List Transaction} {i : Nat} (hi : i < ts.length) :
    IsRunFrom ts i (runFrom ts i) := by
  have hdi : ts.getD i default = ts[i] := List.getD_eq_getElem ts default hi
  unfold IsRunFrom
  rw [runFrom_eq hi]
  refine ⟨((ts.drop (i + 1)).takeWhile (fun u => u.date == ts[i].date)).length + 1,
    Nat.le_add_left 1 _, ?_, ?_, ?_⟩
  · rw [List.drop_eq_getElem_cons hi, List.take_succ_cons]
    exact congrArg _ (takeWhile_eq_take_length _ _)
  · intro t ht
    rw [hdi]
    rcases List.mem_cons.mp ht with h | h
    · rw [h]
    · have hb := List.mem_takeWhile_imp h
      have hb2 : (t.date == ts[i].date) = true := hb
      exact eq_of_beq hb2
  · have hbound : ((ts.drop (i + 1)).takeWhile (fun u => u.date == ts[i].date)).length
        ≤ ts.length - (i + 1) := by
      have := takeWhile_length_le (fun u => u.date == ts[i].date) (ts.drop (i + 1))
      simpa [List.length_drop] using this
    rcases eq_or_lt_of_le (show
        i + (((ts.drop (i + 1)).takeWhile (fun u => u.date == ts[i].date)).length + 1)
          ≤ ts.length by omega) with hcase | hcase
    · left
      exact hcase
    · right
      refine ⟨hcase, ?_⟩
      rw [hdi]
      have hlt2 : ((ts.drop (i + 1)).takeWhile (fun u => u.date == ts[i].date)).length
          < (ts.drop (i + 1)).length := by
        rw [List.length_drop]
        omega
      have hfalse := getD_after_takeWhile (fun u => u.date == ts[i].date) default
        (ts.drop (i + 1)) hlt2
      have hidx : ts.getD
          (i + (((ts.drop (i + 1)).takeWhile (fun u => u.date == ts[i].date)).length + 1))
          default
          = (ts.drop (i + 1)).getD
            ((ts.drop (i + 1)).takeWhile (fun u => u.date == ts[i].date)).length default := by
        rw [List.getD_eq_getElem _ _ hcase, List.getD_eq_getElem _ _ hlt2, List.getElem_drop]
        congr 1
        omega
      have hfalse2 : (((ts.drop (i + 1)).getD
          ((ts.drop (i + 1)).takeWhile (fun u => u.date == ts[i].date)).length default).date
          == ts[i].date) = false := hfalse
      rw [hidx]
      intro hEq
      rw [hEq] at hfalse2
      simp at hfalse2

/-- **C2**: whenever the Identity Engine succeeds on a (date-ascending)
batch, the transaction it returns at position `i` carries the digest of
the contiguous run starting at `i` and extending forward exactly while the
date equals the date at `i` — so the last transaction of a same-day run is
hashed alone and the first with the whole run. -/
theorem c2_position_gets_run_digest :
    ∀ (md5 : List HashInput → String) (ts ts2 : List Transaction) (i : Nat) (u : Transaction),
      DateSorted ts → generate_transaction_ids md5 ts = .ok ts2 → ts2[i]? = some u →
      ∃ run, IsRunFrom ts i run ∧ u.id = hash_transactions md5 run := by
  intro md5 ts ts2 i u _hs hok hu
  rw [generate_transaction_ids_eq] at hok
  by_cases hcond : (idsComputed md5 ts).dedup.length = ts.length
  · rw [if_pos hcond] at hok
    injection hok with hok
    subst hok
    rw [List.getElem?_mapIdx] at hu
    cases hti : ts[i]? with
    | none =>
      rw [hti] at hu
      simp at hu
    | some t0 =>
      rw [hti] at hu
      simp only [Option.map_some'] at hu
      have hival : i < ts.length := (List.getElem?_eq_some.mp hti).1
      injection hu with hu
      refine ⟨runFrom ts i, runFrom_isRunFrom hival, ?_⟩
      rw [← hu]
  · rw [if_neg hcond] at hok
    exact absurd hok (by simp)

/-- Witness for C2: the head of the three-transaction same-day batch. -/
theorem c2_witness :
    ∃ run, IsRunFrom [tEx1, tEx2, tEx3] 0 run ∧
      ({ tEx1 with id := "aaa" } : Transaction).id = hash_transactions md5len run :=
  c2_position_gets_run_digest md5len [tEx1, tEx2, tEx3]
    [{ tEx1 with id := "aaa" }, { tEx2 with id := "aa" }, { tEx3 with id := "a" }]
    0 { tEx1 with id := "aaa" } (by decide) (by decide) (by decide)

theorem runFrom_nil {ts : List Transaction} {i : Nat} (h : ts.length ≤ i) :
    runFrom ts i = [] := by
  unfold runFrom
  rw [List.drop_eq_nil_of_le h]

theorem takeWhile_content (d : String) :
    ∀ l1 l2 : List Transaction, l1.map transactionContent = l2.map transactionContent →
      (l1.takeWhile (fun u => u.date == d)).map (fun t => HashInput.txn (transactionContent t))
        = (l2.takeWhile (fun u => u.date == d)).map
            (fun t => HashInput.txn (transactionContent t)) := by
  intro l1
  induction l1 with
  | nil =>
    intro l2 h
    have h2 : l2 = [] := List.map_eq_nil_iff.mp h.symm
    rw [h2]
  | cons a as ih =>
    intro l2 h
    cases l2 with
    | nil => simp at h
    | cons b bs =>
      simp only [List.map_cons, List.cons.injEq] at h
      obtain ⟨h1, h2⟩ := h
      have hdate : a.date = b.date := congrArg TransactionContent.date h1
      by_cases hp : (a.date == d) = true
      · have hpb : (b.date == d) = true := by
          rw [← hdate]
          exact hp
        rw [@List.takeWhile_cons_of_pos _ (fun u => u.date == d) a as hp,
          @List.takeWhile_cons_of_pos _ (fun u => u.date == d) b bs hpb]
        simp only [List.map_cons]
        rw [h1, ih bs h2]
      · have hpb : ¬ ((b.date == d) = true) := by
          rw [← hdate]
          exact hp
        rw [@List.takeWhile_cons_of_neg _ (fun u => u.date == d) a as hp,
          @List.takeWhile_cons_of_neg _ (fun u => u.date == d) b bs hpb]

theorem runFrom_map_content (ts1 ts2 : List Transaction) (i : Nat)
    (h : ts1.map transactionContent = ts2.map transactionContent) :
    (runFrom ts1 i).map (fun t => HashInput.txn (transactionContent t))
      = (runFrom ts2 i).map (fun t => HashInput.txn (transactionContent t)) := by
  have hlen : ts1.length = ts2.length := by
    simpa using congrArg List.length h
  by_cases hi : i < ts1.length
  · have hi2 : i < ts2.length := hlen ▸ hi
    rw [runFrom_eq hi, runFrom_eq hi2]
    have h0 := congrArg (fun l => l[i]?) h
    simp only [List.getElem?_map, List.getElem?_eq_getElem hi, List.getElem?_eq_getElem hi2,
      Option.map_some', Option.some.injEq] at h0
    have hdate : ts1[i].date = ts2[i].date := congrArg TransactionContent.date h0
    simp only [List.map_cons]
    rw [h0, ← hdate]
    exact congrArg _ (takeWhile_content ts1[i].date (ts1.drop (i + 1)) (ts2.drop (i + 1))
      (by rw [List.map_drop, List.map_drop, h]))
  · have hi2 : ts2.length ≤ i := by omega
    rw [runFrom_nil (Nat.le_of_not_lt hi), runFrom_nil hi2]

theorem idsComputed_content {md5 : List HashInput → String} {ts1 ts2 : List Transaction}
    (h : ts1.map transactionContent = ts2.map transactionContent) :
    idsComputed md5 ts1 = idsComputed md5 ts2 := by
  have hlen : ts1.length = ts2.length := by
    simpa using congrArg List.length h
  rw [idsComputed_eq, idsComputed_eq, ← hlen]
  apply List.map_congr_left
  intro i _hi
  rw [hash_transactions_eq, hash_transactions_eq, runFrom_map_content ts1 ts2 i h]

/-- **C3**: the Identity Engine is deterministic and its digests depend
only on the visible fields (date, description, category, amount, tags,
balance) of the batch — two batches equal on those fields (ids may
differ arbitrarily) receive identical ids at every position, and no
external state enters the computation. -/
theorem c3_identity_deterministic :
    ∀ (md5 : List HashInput → String) (ts1 ts2 : List Transaction),
      ts1.map transactionContent = ts2.map transactionContent →
      Except.map (List.map (fun t => t.id)) (generate_transaction_ids md5 ts1) =
        Except.map (List.map (fun t => t.id)) (generate_transaction_ids md5 ts2) := by
  intro md5 ts1 ts2 h
  have hlen : ts1.length = ts2.length := by
    simpa using congrArg List.length h
  have hids : idsComputed md5 ts1 = idsComputed md5 ts2 := idsComputed_content h
  rw [generate_transaction_ids_eq, generate_transaction_ids_eq, hids, hlen]
  by_cases hcond : (idsComputed md5 ts2).dedup.length = ts2.length
  · rw [if_pos hcond, if_pos hcond]
    simp only [Except.map]
    exact congrArg Except.ok hids
  · rw [if_neg hcond, if_neg hcond]

/-- Witness for C3: the same transaction content under two different
stale `id` values hashes identically. -/
theorem c3_witness :
    Except.map (List.map (fun t => t.id)) (generate_transaction_ids md5len [tEx1]) =
      Except.map (List.map (fun t => t.id))
        (generate_transaction_ids md5len [{ tEx1 with id := "zzz" }]) :=
  c3_identity_deterministic md5len [tEx1] [{ tEx1 with id := "zzz" }] (by decide)

/-- **C4** (code defect): the `Category` enumeration declares exactly
seventeen members — `Unknown` plus sixteen spending buckets — and has no
`Bank` member: the attribute lookup `Category.Bank` performed by
`_parse_csv` and `_parse_ofx` for every bank-ledger transaction resolves
to nothing (an `AttributeError`), while `Unknown` resolves normally. -/
theorem c4_category_bank_missing :
    categoryAttr "Bank" = none ∧
      categoryAttr "Unknown" = some Category.Unknown ∧
      categoryMembers.length = 17 ∧
      (categoryMembers.map categoryName).contains "Bank" = false := by
  decide

/-- **C5** counterexample: the tokenizer splits only on the space
character, so the tab-separated description `"PG\tE"` yields `[]`, while
the claim's split-on-whitespace procedure yields `["PG", "E"]`. -/
theorem c5_counterexample :
    split_description "PG\tE" = [] ∧
      specTokenize "PG\tE" = ["PG", "E"] ∧
      split_description "PG\tE" ≠ specTokenize "PG\tE" := by
  decide

theorem decide_length_pos_eq_bne (s : String) :
    (decide (s.length > 0)) = (s != "") := by
  rcases s with ⟨data⟩
  cases data with
  | nil => decide
  | cons c cs =>
    have h1 : (String.mk (c :: cs) != "") = true := by
      rw [bne_iff_ne]
      intro hcontra
      rw [show ("" : String) = String.mk [] from rfl] at hcontra
      injection hcontra with h2
      cases h2
    rw [h1]
    simp [String.length]

theorem is_valid_word_eq (s : String) :
    is_valid_word s
      = (s != "" && s.data.all (fun c => c.isAlphanum || c == '&') && s != "&") := by
  unfold is_valid_word
  rw [decide_length_pos_eq_bne]

/-- **C5** amended: the tokenizer follows the claimed procedure except
that the split is on the space character only — each non-alphanumeric,
non-whitespace, non-`&` character becomes a space, the cleaned text is
split on `' '`, and empty tokens, tokens with a character outside
alphanumeric/`&`, and the bare `&` are discarded (so the claim's four
examples hold; tokens containing other whitespace are discarded rather
than split). -/
theorem c5_tokenization_amended :
    (∀ d, split_description d = specTokenizeSpace d) ∧
      split_description "PG & E" = ["PG", "E"] ∧
      split_description "PGE" = ["PGE"] ∧
      split_description "PG&E" = ["PG&E"] ∧
      split_description "PG & E PGE PG&E" = ["PG", "E", "PGE", "PG&E"] := by
  refine ⟨?_, by decide, by decide, by decide, by decide⟩
  intro d
  simp only [split_description, specTokenizeSpace]
  apply List.filter_congr
  intro s _hs
  exact is_valid_word_eq s

theorem dictLookup_insert_self :
    ∀ (m : CategoryMap) (k : String) (v : Category),
      dictLookup (dictInsert m k v) k = some v := by
  intro m k v
  induction m with
  | nil => simp [dictInsert, dictLookup]
  | cons p rest ih =>
    by_cases h : (p.1 == k) = true
    · simp [dictInsert, h, dictLookup]
    · simp only [dictInsert, h, if_false, Bool.false_eq_true, ite_false]
      simp [dictLookup, h, ih]

theorem dictLookup_insert_ne :
    ∀ (m : CategoryMap) (k : String) (v : Category) (k2 : String), k2 ≠ k →
      dictLookup (dictInsert m k v) k2 = dictLookup m k2 := by
  intro m k v k2 hne
  induction m with
  | nil =>
    simp [dictInsert, dictLookup]
    intro hcontra
    exact absurd hcontra.symm hne
  | cons p rest ih =>
    by_cases h : (p.1 == k) = true
    · have hp : p.1 = k := eq_of_beq h
      simp only [dictInsert, h, if_true]
      simp [dictLookup, hp, Ne.symm hne]
    · simp only [dictInsert, h, Bool.false_eq_true, ite_false]
      simp [dictLookup, ih]

/-- **C6** counterexample: the key `"a\tb"` contains a whitespace
character (the tab), yet `CategoryHinter.store` accepts it — the guard
checks only for the space character. -/
theorem c6_counterexample :
    (∃ c ∈ "a\tb".data, c.isWhitespace = true) ∧
      hinterStore [] "a\tb" Category.Food = .ok [("a\tb", Category.Food)] := by
  decide

/-- **C6** amended: `CategoryHinter.store` raises exactly when the key
contains the space character `' '` (not an arbitrary whitespace
character); otherwise it inserts or overwrites the single mapping
`key -> category`, leaving every other key unchanged. -/
theorem c6_hinter_store_amended :
    ∀ (config : CategoryMap) (key : String) (category : Category),
      (key.data.contains ' ' = true →
        hinterStore config key category =
          .error "can not contain whitespaces, it must be 1 word") ∧
      (key.data.contains ' ' = false →
        hinterStore config key category = .ok (dictInsert config key category) ∧
        dictLookup (dictInsert config key category) key = some category ∧
        ∀ k, k ≠ key →
          dictLookup (dictInsert config key category) k = dictLookup config k) := by
  intro config key category
  constructor
  · intro h
    unfold hinterStore
    rw [if_pos h]
  · intro h
    refine ⟨?_, dictLookup_insert_self config key category,
      fun k hk => dictLookup_insert_ne config key category k hk⟩
    unfold hinterStore
    rw [if_neg (by rw [h]; exact Bool.false_ne_true)]

/-- Witness for the amended C6: a spaced key is rejected, a one-word key
is stored and found. -/
theorem c6_witness :
    hinterStore [] "a b" Category.Food =
        .error "can not contain whitespaces, it must be 1 word" ∧
      (hinterStore [] "ab" Category.Food = .ok (dictInsert [] "ab" Category.Food) ∧
        dictLookup (dictInsert [] "ab" Category.Food) "ab" = some Category.Food ∧
        ∀ k, k ≠ "ab" → dictLookup (dictInsert [] "ab" Category.Food) k = dictLookup [] k) :=
  ⟨(c6_hinter_store_amended [] "a b" Category.Food).1 (by decide),
    (c6_hinter_store_amended [] "ab" Category.Food).2 (by decide)⟩

/-- **C7** counterexample: a dry-run (`do_flush = false`) `build_hints`
call leaves the file untouched but *does* merge the new hint into the
in-memory config — the state a later `flush` would write is changed. -/
theorem c7_counterexample :
    (build_hints (fun _ => true) [] [] [("Costco", Category.Groceries)] false).file = [] ∧
      (build_hints (fun _ => true) [] [] [("Costco", Category.Groceries)] false).config
        = [("Costco", Category.Groceries)] ∧
      (build_hints (fun _ => true) [] [] [("Costco", Category.Groceries)] false).config
        ≠ ([] : CategoryMap) := by
  decide

/-- **C7** amended: with `flush = false`, `build_hints` never writes the
persisted file; however the in-memory config is merged exactly as in a
flushing call (so a later flush would persist the new hints), and a
flushing call writes precisely that merged config. -/
theorem c7_build_hints_amended :
    ∀ (isNoun : String → Bool) (config file dcm : CategoryMap),
      (build_hints isNoun config file dcm false).file = file ∧
      (build_hints isNoun config file dcm false).config
        = (build_hints isNoun config file dcm true).config ∧
      (build_hints isNoun config file dcm true).file
        = (build_hints isNoun config file dcm true).config := by
  intro isNoun config file dcm
  refine ⟨?_, ?_, ?_⟩ <;> simp [build_hints]

theorem promptStep_ret_table {hinter table : CategoryMap} {description : String}
    {options : List (Category × String)} {inp : String} {c : Category}
    {h2 t2 : CategoryMap}
    (h : promptStep hinter table description options inp = .ret c h2 t2) :
    t2 = table ∨ ∃ cat, t2 = dictInsert table description cat := by
  unfold promptStep at h
  split at h
  · exact absurd h (by simp)
  · split at h
    · exact absurd h (by simp)
    · split at h
      · injection h with ha hb hc
        exact Or.inl hc.symm
      · split at h
        · exact absurd h (by simp)
        · split at h
          · exact absurd h (by simp)
          · rename_i category word heq1 hsk x1 hinter3 heq2 x2 table3 hts
            injection h with ha hb hc
            right
            refine ⟨category, ?_⟩
            rw [← hc]
            unfold tableStore at hts
            by_cases hu : category = Category.Unknown
            · rw [if_pos hu] at hts
              exact absurd hts (by simp)
            · rw [if_neg hu] at hts
              injection hts with hts
              exact hts.symm

theorem promptStep_raised_table {hinter table : CategoryMap} {description : String}
    {options : List (Category × String)} {inp : String} {e : Exc}
    {h2 t2 : CategoryMap}
    (h : promptStep hinter table description options inp = .raised e h2 t2) :
    t2 = table := by
  unfold promptStep at h
  split at h
  · exact absurd h (by simp)
  · split at h
    · injection h with ha hb hc
      exact hc.symm
    · split at h
      · exact absurd h (by simp)
      · split at h
        · injection h with ha hb hc
          exact hc.symm
        · split at h
          · injection h with ha hb hc
            exact hc.symm
          · exact absurd h (by simp)

theorem promptLoop_table_frame {description : String} {options : List (Category × String)}
    {k : String} (hk : k ≠ description) :
    ∀ (script : List PromptIn) (hinter table : CategoryMap),
      dictLookup (resTable (promptLoop hinter table description options script).1) k
        = dictLookup table k := by
  intro script
  induction script with
  | nil => intro hinter table; rfl
  | cons ev rest ih =>
    intro hinter table
    cases ev with
    | interrupt => rfl
    | input s =>
      simp only [promptLoop]
      cases hps : promptStep hinter table description options s with
      | ret c hh tt =>
        rcases promptStep_ret_table hps with h1 | ⟨cat, h1⟩
        · subst h1
          rfl
        · subst h1
          exact dictLookup_insert_ne table description cat k hk
      | reprompt => exact ih hinter table
      | raised e hh tt =>
        rw [promptStep_raised_table hps]
        exact rfl

theorem dtcGo_cons_lookup {b : Bool} {t : Transaction} {rest : List Transaction}
    {idx : Nat} {table hinter : CategoryMap} {script : List PromptIn} {c : Category}
    (hlk : dictLookup table t.description = some c) :
    dtcGo b (t :: rest) idx table hinter script =
      ⟨{ t with category := c } :: (dtcGo b rest (idx + 1) table hinter script).txns,
        (dtcGo b rest (idx + 1) table hinter script).table,
        (dtcGo b rest (idx + 1) table hinter script).hinter,
        (dtcGo b rest (idx + 1) table hinter script).script,
        (dtcGo b rest (idx + 1) table hinter script).prompted,
        (dtcGo b rest (idx + 1) table hinter script).exc⟩ := by
  simp only [dtcGo, hlk]

theorem dtcGo_cons_noPrompt {t : Transaction} {rest : List Transaction}
    {idx : Nat} {table hinter : CategoryMap} {script : List PromptIn}
    (hlk : dictLookup table t.description = none) :
    dtcGo false (t :: rest) idx table hinter script =
      ⟨t :: (dtcGo false rest (idx + 1) table hinter script).txns,
        (dtcGo false rest (idx + 1) table hinter script).table,
        (dtcGo false rest (idx + 1) table hinter script).hinter,
        (dtcGo false rest (idx + 1) table hinter script).script,
        (dtcGo false rest (idx + 1) table hinter script).prompted,
        (dtcGo false rest (idx + 1) table hinter script).exc⟩ := by
  simp [dtcGo, hlk]

theorem dtcGo_cons_prompt_ok {t : Transaction} {rest : List Transaction}
    {idx : Nat} {table hinter : CategoryMap} {script rest2 : List PromptIn}
    {c2 : Category} {hinter2 table2 : CategoryMap}
    (hlk : dictLookup table t.description = none)
    (hpl : promptLoop hinter table t.description (mkOptions hinter t.description) script
      = (.ok (c2, hinter2, table2), rest2)) :
    dtcGo true (t :: rest) idx table hinter script =
      ⟨{ t with category := c2 } :: (dtcGo true rest (idx + 1) table2 hinter2 rest2).txns,
        (dtcGo true rest (idx + 1) table2 hinter2 rest2).table,
        (dtcGo true rest (idx + 1) table2 hinter2 rest2).hinter,
        (dtcGo true rest (idx + 1) table2 hinter2 rest2).script,
        idx :: (dtcGo true rest (idx + 1) table2 hinter2 rest2).prompted,
        (dtcGo true rest (idx + 1) table2 hinter2 rest2).exc⟩ := by
  simp [dtcGo, hlk, hpl]

theorem dtcGo_cons_prompt_error {t : Transaction} {rest : List Transaction}
    {idx : Nat} {table hinter : CategoryMap} {script rest2 : List PromptIn}
    {e : Exc} {hinter2 table2 : CategoryMap}
    (hlk : dictLookup table t.description = none)
    (hpl : promptLoop hinter table t.description (mkOptions hinter t.description) script
      = (.error (e, hinter2, table2), rest2)) :
    dtcGo true (t :: rest) idx table hinter script =
      ⟨t :: rest, table2, hinter2, rest2, [idx], some e⟩ := by
  simp [dtcGo, hlk, hpl]

theorem dtcGo_prompted_ge (b : Bool) :
    ∀ (txs : List Transaction) (idx : Nat) (table hinter : CategoryMap)
      (script : List PromptIn),
      ∀ m ∈ (dtcGo b txs idx table hinter script).prompted, idx ≤ m := by
  intro txs
  induction txs with
  | nil =>
    intro idx table hinter script m hm
    simp [dtcGo] at hm
  | cons t rest ih =>
    intro idx table hinter script m hm
    cases hlk : dictLookup table t.description with
    | some c =>
      rw [dtcGo_cons_lookup hlk] at hm
      have := ih (idx + 1) table hinter script m hm
      omega
    | none =>
      cases b with
      | false =>
        rw [dtcGo_cons_noPrompt hlk] at hm
        have := ih (idx + 1) table hinter script m hm
        omega
      | true =>
        rcases hres : promptLoop hinter table t.description
            (mkOptions hinter t.description) script with ⟨res, rest2⟩
        cases res with
        | ok val =>
          obtain ⟨c2, hinter2, table2⟩ := val
          rw [dtcGo_cons_prompt_ok hlk hres] at hm
          rcases List.mem_cons.mp hm with h1 | h1
          · omega
          · have := ih (idx + 1) table2 hinter2 rest2 m h1
            omega
        | error val =>
          obtain ⟨e, hinter2, table2⟩ := val
          rw [dtcGo_cons_prompt_error hlk hres] at hm
          simp at hm
          omega

theorem dtcGo_no_prompt :
    ∀ (txs : List Transaction) (idx : Nat) (table hinter : CategoryMap)
      (script : List PromptIn),
      dtcGo false txs idx table hinter script =
        ⟨txs.map (fun t => match dictLookup table t.description with
            | some c => { t with category := c }
            | none => t),
          table, hinter, script, [], none⟩ := by
  intro txs
  induction txs with
  | nil => intro idx table hinter script; rfl
  | cons t rest ih =>
    intro idx table hinter script
    cases hlk : dictLookup table t.description with
    | some c =>
      rw [dtcGo_cons_lookup hlk, ih]
      simp [hlk]
    | none =>
      rw [dtcGo_cons_noPrompt hlk, ih]
      simp [hlk]

theorem dtcGo_lookup_stable :
    ∀ (txs : List Transaction) (idx : Nat) (table hinter : CategoryMap)
      (script : List PromptIn) (i : Nat) (u : Transaction) (c : Category),
      txs[i]? = some u → dictLookup table u.description = some c →
      ((idx + i) ∉ (dtcGo true txs idx table hinter script).prompted) ∧
        ((dtcGo true txs idx table hinter script).exc = none →
          (dtcGo true txs idx table hinter script).txns[i]? =
            some { u with category := c }) := by
  intro txs
  induction txs with
  | nil =>
    intro idx table hinter script i u c hu hc
    simp at hu
  | cons t rest ih =>
    intro idx table hinter script i u c hu hc
    cases i with
    | zero =>
      have hu2 : t = u := by simpa using hu
      subst hu2
      rw [dtcGo_cons_lookup hc]
      constructor
      · intro hmem
        have := dtcGo_prompted_ge true rest (idx + 1) table hinter script _ hmem
        omega
      · intro _hexc
        simp
    | succ i2 =>
      have hu2 : rest[i2]? = some u := by simpa using hu
      cases hlk : dictLookup table t.description with
      | some c2 =>
        rw [dtcGo_cons_lookup hlk]
        have hrec := ih (idx + 1) table hinter script i2 u c hu2 hc
        constructor
        · intro hmem
          have hmem2 : (idx + 1) + i2
              ∈ (dtcGo true rest (idx + 1) table hinter script).prompted := by
            rw [show (idx + 1) + i2 = idx + (i2 + 1) from by omega]
            exact hmem
          exact hrec.1 hmem2
        · intro hexc
          simpa using hrec.2 hexc
      | none =>
        rcases hres : promptLoop hinter table t.description
            (mkOptions hinter t.description) script with ⟨res, rest2⟩
        cases res with
        | ok val =>
          obtain ⟨c2, hinter2, table2⟩ := val
          have hdne : u.description ≠ t.description := by
            intro hEq
            rw [hEq, hlk] at hc
            cases hc
          have hframe := @promptLoop_table_frame t.description
            (mkOptions hinter t.description) u.description hdne script hinter table
          rw [hres] at hframe
          have hc2 : dictLookup table2 u.description = some c := by
            rw [← hc]
            exact hframe
          rw [dtcGo_cons_prompt_ok hlk hres]
          have hrec := ih (idx + 1) table2 hinter2 rest2 i2 u c hu2 hc2
          constructor
          · intro hmem
            rcases List.mem_cons.mp hmem with h1 | h1
            · omega
            · have hmem2 : (idx + 1) + i2
                  ∈ (dtcGo true rest (idx + 1) table2 hinter2 rest2).prompted := by
                rw [show (idx + 1) + i2 = idx + (i2 + 1) from by omega]
                exact h1
              exact hrec.1 hmem2
          · intro hexc
            simpa using hrec.2 hexc
        | error val =>
          obtain ⟨e, hinter2, table2⟩ := val
          rw [dtcGo_cons_prompt_error hlk hres]
          constructor
          · intro hmem
            simp at hmem
          · intro hexc
            cases hexc

/-- **C8**: the Resolution Engine assigns the Lookup Table's category to
every exact-match description without prompting (in both modes), and in
non-interactive mode it never prompts, never raises, leaves both stores
untouched, and leaves every unmatched transaction (in particular its
`Unknown` category) unchanged. -/
theorem c8_exact_match_resolution :
    (∀ (tf hf : CategoryMap) (txs : List Transaction) (script : List PromptIn),
        determine_transaction_categories tf hf txs false script =
          ⟨txs.map (fun t => match dictLookup tf t.description with
              | some c => { t with category := c }
              | none => t),
            tf, hf, script, [], none⟩) ∧
    (∀ (tf hf : CategoryMap) (txs : List Transaction) (script : List PromptIn)
        (i : Nat) (u : Transaction) (c : Category),
        txs[i]? = some u → dictLookup tf u.description = some c →
        (i ∉ (determine_transaction_categories tf hf txs true script).prompted) ∧
          ((determine_transaction_categories tf hf txs true script).exc = none →
            (determine_transaction_categories tf hf txs true script).txns[i]? =
              some { u with category := c })) := by
  constructor
  · intro tf hf txs script
    exact dtcGo_no_prompt txs 0 tf hf script
  · intro tf hf txs script i u c hu hc
    have h := dtcGo_lookup_stable txs 0 tf hf script i u c hu hc
    constructor
    · intro hmem
      exact h.1 (by simpa using hmem)
    · exact h.2

/-- Witness for C8: a transaction whose description matches the table is
resolved without prompting even in interactive mode with a hostile
script. -/
theorem c8_witness :
    (0 ∉ (determine_transaction_categories [("NETFLIX", Category.Entertainment)] []
        [dEx "NETFLIX"] true [.interrupt]).prompted) ∧
      ((determine_transaction_categories [("NETFLIX", Category.Entertainment)] []
          [dEx "NETFLIX"] true [.interrupt]).exc = none →
        (determine_transaction_categories [("NETFLIX", Category.Entertainment)] []
            [dEx "NETFLIX"] true [.interrupt]).txns[0]? =
          some { dEx "NETFLIX" with category := Category.Entertainment }) :=
  c8_exact_match_resolution.2 [("NETFLIX", Category.Entertainment)] [] [dEx "NETFLIX"]
    [.interrupt] 0 (dEx "NETFLIX") Category.Entertainment (by decide) (by decide)

/-- **C9** (code defect at the call site): `cli.do_update_categories`
passes `(table, hinter, transactions, do_prompt=...)` — three positional
arguments plus the keyword — to `determine_transaction_categories`, whose
signature is `(transactions, do_prompt)`; the call cannot bind
(a `TypeError` before any resolution), so the claimed interruption flow is
unreachable from the CLI.  The callee itself does implement the claimed
behavior: in the spec's scenario (five unknowns, two resolved, then an
interrupt) the two resolved categories are preserved in the observable
batch, the other three stay `Unknown`, and both stores are flushed with
exactly the two learned entries. -/
theorem c9_interrupt_call_site :
    bindCall dtcSignature doUpdateCategoriesCall.1 doUpdateCategoriesCall.2 = false ∧
      determine_transaction_categories [] []
          [dEx "D1", dEx "D2", dEx "D3", dEx "D4", dEx "D5"]
          true [.input "10", .input "7", .interrupt]
        = ⟨[{ dEx "D1" with category := .Groceries }, { dEx "D2" with category := .Food },
            dEx "D3", dEx "D4", dEx "D5"],
           [("D1", .Groceries), ("D2", .Food)], [], [], [0, 1, 2],
           some .keyboardInterrupt⟩ := by
  constructor
  · decide
  · decide

theorem hinterHint_nil (d : String) : hinterHint [] d = [] := by
  unfold hinterHint
  generalize (split_description d).eraseDups = l
  induction l with
  | nil => rfl
  | cons a as ih => simp [dictLookup, ih]

/-- **C10**: the interactive prompt's exhaustive fallback list carries
`Unknown` itself as a selectable bare option (index 1 when there are no
hints), and selecting it is not handled like the skip entry: the Lookup
Table's `store` rejects `Unknown` with a `RuntimeError` that the
re-prompt loop's `except (ValueError, KeyError)` clause does not catch,
so the loop neither re-prompts (the rest of the script is unconsumed) nor
returns a category — the error propagates with both stores unchanged. -/
theorem c10_bare_unknown_raises :
    ∀ (table : CategoryMap) (description : String) (script : List PromptIn),
      (mkOptions [] description)[1]? = some (Category.Unknown, "") ∧
      promptLoop [] table description (mkOptions [] description)
          (.input "1" :: script)
        = (.error (.runtimeError "Trying to store with an unknown category", [], table),
            script) := by
  intro table description script
  have hopts : mkOptions [] description
      = (Category.Unknown, "SKIP") :: categoryMembers.map (fun c => (c, "")) := by
    rw [mkOptions, hinterHint_nil]
    rfl
  rw [hopts]
  exact ⟨rfl, rfl⟩
